import Mathlib

/-!
Verification of the computational core of sl-creation-utils.

The Python sources are shallowly embedded over exact arithmetic:
Python floats become `ℚ`, Python ints become `ℤ`/`ℕ`, Python `//` becomes
`Int.fdiv` (floor division) and Python `%` on a positive modulus becomes
`Int.emod`.  Python's `int()` conversion (truncation toward zero) is
modelled by `pyInt`.
-/

/-- Python `int(q)`: truncation toward zero. -/
def pyInt (q : ℚ) : ℤ := if q < 0 then ⌈q⌉ else ⌊q⌋

namespace MorphTarget

/-- A 3D vector of exact rationals, standing in for `mathutils.Vector`. -/
structure Vec3 where
  x : ℚ
  y : ℚ
  z : ℚ
deriving DecidableEq, Repr

instance : Sub Vec3 := ⟨fun a b => ⟨a.x - b.x, a.y - b.y, a.z - b.z⟩⟩

/-- `MAX_MOVEMENT = 5.0` from blender_sl_morph_target_rigging.py. -/
def MAX_MOVEMENT : ℚ := 5

/-- `vec_motion_all_axes`: sum of the absolute values of the components. -/
def vec_motion_all_axes (coord : Vec3) : ℚ :=
  |coord.x| + |coord.y| + |coord.z|

/-- `vector_to_weights` from blender_sl_morph_target_rigging.py:
starts from seven zero weights, picks the channel of each axis by the sign
of the component, writes `|component| / MAX_MOVEMENT` there, and finally
sets the last (slack) channel to `1 - sum(weights)`. -/
def vector_to_weights (coord : Vec3) : List ℚ :=
  let x_idx : ℕ := if coord.x < 0 then 1 else 0
  let y_idx : ℕ := if coord.y < 0 then 3 else 2
  let z_idx : ℕ := if coord.z < 0 then 5 else 4
  let weights : List ℚ := List.replicate 7 0
  let weights := weights.set x_idx (|coord.x| / MAX_MOVEMENT)
  let weights := weights.set y_idx (|coord.y| / MAX_MOVEMENT)
  let weights := weights.set z_idx (|coord.z| / MAX_MOVEMENT)
  weights.set 6 (1 - weights.sum)

/-- The weight the code leaves at index `i` (0-based over the seven
`VERTEX_GROUP_NAMES` channels, 6 being the slack channel `mPelvis`). -/
def weight_at (d : Vec3) (i : ℕ) : ℚ :=
  (vector_to_weights d).getD i 0

/-- "Exactly one of the two channels of an axis-sign pair is nonzero". -/
def exactly_one_nonzero (a b : ℚ) : Prop :=
  (a ≠ 0 ∧ b = 0) ∨ (a = 0 ∧ b ≠ 0)

/-- Conclusion of the budget-conditional soundness property of
`vector_to_weights`: 7 values, all non-negative, summing to 1, with at most
one channel of each axis-sign pair nonzero — exactly one when the
component is nonzero, both zero when the component is zero. -/
def weights_budget_ok (d : Vec3) : Prop :=
  (vector_to_weights d).length = 7 ∧
  (∀ w ∈ vector_to_weights d, 0 ≤ w) ∧
  (vector_to_weights d).sum = 1 ∧
  (d.x ≠ 0 → exactly_one_nonzero (weight_at d 0) (weight_at d 1)) ∧
  (d.x = 0 → weight_at d 0 = 0 ∧ weight_at d 1 = 0) ∧
  (d.y ≠ 0 → exactly_one_nonzero (weight_at d 2) (weight_at d 3)) ∧
  (d.y = 0 → weight_at d 2 = 0 ∧ weight_at d 3 = 0) ∧
  (d.z ≠ 0 → exactly_one_nonzero (weight_at d 4) (weight_at d 5)) ∧
  (d.z = 0 → weight_at d 4 = 0 ∧ weight_at d 5 = 0)

/-- Invariants of `vector_to_weights` that hold with no precondition at
all: 7 values summing exactly to 1, at most one channel of each axis-sign
pair nonzero, and both channels of a pair zero when the component is
zero. -/
def weights_unconditional_ok (d : Vec3) : Prop :=
  (vector_to_weights d).length = 7 ∧
  (vector_to_weights d).sum = 1 ∧
  ¬(weight_at d 0 ≠ 0 ∧ weight_at d 1 ≠ 0) ∧
  ¬(weight_at d 2 ≠ 0 ∧ weight_at d 3 ≠ 0) ∧
  ¬(weight_at d 4 ≠ 0 ∧ weight_at d 5 ≠ 0) ∧
  (d.x = 0 → weight_at d 0 = 0 ∧ weight_at d 1 = 0) ∧
  (d.y = 0 → weight_at d 2 = 0 ∧ weight_at d 3 = 0) ∧
  (d.z = 0 → weight_at d 4 = 0 ∧ weight_at d 5 = 0)

/-- One weight-channel write emitted by `vertex_group.add([vi], w, 'REPLACE')`:
the vertex index, the 0-based channel (position in `VERTEX_GROUP_NAMES`), and
the weight. -/
structure ChannelWrite where
  vertex : ℕ
  group : ℕ
  weight : ℚ
deriving DecidableEq, Repr

/-- The seven writes the inner loop of `apply_pos_offset_weights` issues for
one vertex: `zip(vertex_groups, vector_to_weights(diff))`. -/
def writes_for_vertex (vi : ℕ) (diff : Vec3) : List ChannelWrite :=
  (vector_to_weights diff).enum.map (fun p => ⟨vi, p.1, p.2⟩)

/-- The per-loop body of `apply_pos_offset_weights`, over the list of loop
vertex indices: compute the position delta, raise `WeightException` with the
offending total (modelled as `some total`) when it exceeds `MAX_MOVEMENT`,
otherwise emit that vertex's seven channel writes and continue.  Returns the
writes issued before any exception, paired with the exception payload. -/
def apply_pos_offset_weights (source_co target_co : ℕ → Vec3) :
    List ℕ → List ChannelWrite × Option ℚ
  | [] => ([], none)
  | vi :: rest =>
    let diff := source_co vi - target_co vi
    let total := vec_motion_all_axes diff
    if MAX_MOVEMENT < total then ([], some total)
    else
      let res := apply_pos_offset_weights source_co target_co rest
      (writes_for_vertex vi diff ++ res.1, res.2)

/-- Concrete mesh snapshot used as a witness input: every source vertex at
`(6, 0, 0)`. -/
def demo_source_co : ℕ → Vec3 := fun _ => ⟨6, 0, 0⟩

/-- Concrete mesh snapshot used as a witness input: every target vertex at
the origin, so the displacement `(6, 0, 0)` exceeds `MAX_MOVEMENT`. -/
def demo_target_co : ℕ → Vec3 := fun _ => ⟨0, 0, 0⟩

end MorphTarget

namespace BakeToWeights

/-- `to_bands` from blender_baketoweights.py: one band returns the raw value;
otherwise scale by `num_bands - 1` and emit the tent value
`1.0 - min(1.0, max(0.0, abs(f_val - i)))` for each band `i`. -/
def to_bands (f_val : ℚ) (num_bands : ℕ) : List ℚ :=
  if num_bands = 1 then [f_val]
  else
    let f := f_val * ((num_bands : ℚ) - 1)
    (List.range num_bands).map (fun (i : ℕ) => 1 - min 1 (max 0 |f - (i : ℚ)|))

/-- The `mask is None` (radius = 1) branch of `pick_color`: `x` (the row) is
`int(uv[1] * img_height) % img_height` and `y` (the column) is
`int(uv[0] * img_width) % img_width` — the code reads `uv[1]` for the row and
`uv[0]` for the column — and the sample is the single pixel `pixels[x, y]`. -/
def pick_color_r1 {α : Type} (uv : ℚ × ℚ) (pixels : ℤ → ℤ → α)
    (img_width img_height : ℤ) : α :=
  let x := pyInt (uv.2 * (img_height : ℚ)) % img_height
  let y := pyInt (uv.1 * (img_width : ℚ)) % img_width
  pixels x y

/-- Stated from the spec's words for comparison: the claimed index map
`row = floor(u2*height) mod height`, `col = floor(u1*width) mod width`,
with the sample being the direct lookup at `(row, col)`. -/
def floor_sample_r1 {α : Type} (uv : ℚ × ℚ) (pixels : ℤ → ℤ → α)
    (img_width img_height : ℤ) : α :=
  pixels (⌊uv.2 * (img_height : ℚ)⌋ % img_height)
    (⌊uv.1 * (img_width : ℚ)⌋ % img_width)

/-- The per-vertex map update in `BakeToWeightsOp.execute`: the first sample
for `vi` sets the weight, any later sample is averaged with the running
value (`weights[vi] = (weights[vi] + weight_val) / 2.0`). -/
def update_weight (m : ℕ → Option ℚ) (vi : ℕ) (w : ℚ) : ℕ → Option ℚ :=
  fun v =>
    if v = vi then
      match m vi with
      | some old => some ((old + w) / 2)
      | none => some w
    else m v

/-- Folding the sample sequence `(vertex index, scalar sample)` through the
dictionary update of `BakeToWeightsOp.execute`. -/
def aggregate_weights (samples : List (ℕ × ℚ)) : ℕ → Option ℚ :=
  samples.foldl (fun m p => update_weight m p.1 p.2) (fun _ => none)

/-- The order-dependent pairwise running average: start from the first
sample, then `running = (running + new) / 2` for each later sample. -/
def running_avg (first : ℚ) (rest : List ℚ) : ℚ :=
  rest.foldl (fun acc s => (acc + s) / 2) first

/-- The subsequence of samples touching vertex `v`, in order. -/
def samples_for (v : ℕ) (samples : List (ℕ × ℚ)) : List ℚ :=
  (samples.filter (fun p => p.1 == v)).map Prod.snd

/-- One aggregation step seen from a single vertex: the first sample sets
the value, a later sample `s` turns the running value `a` into
`(a + s) / 2`. -/
def opt_step (o : Option ℚ) (s : ℚ) : Option ℚ :=
  match o with
  | some a => some ((a + s) / 2)
  | none => some s

/-- The claim's per-vertex description of the aggregation: no weight when no
sample touches the vertex, otherwise the order-dependent pairwise running
average of its samples. -/
def claimed_vertex_weight (v : ℕ) (samples : List (ℕ × ℚ)) : Option ℚ :=
  match samples_for v samples with
  | [] => none
  | h :: t => some (running_avg h t)

/-- Pixel grid used in concrete samples: each pixel's value is its row
index, so distinct rows are distinguishable. -/
def row_index_grid : ℤ → ℤ → ℤ := fun i _ => i

/-- Conclusion of the implicit band invariant: `to_bands` with at least two
bands returns exactly `num_bands` values, each in `[0, 1]`, with at most two
nonzero values sitting at adjacent indices. -/
def bands_ok (v : ℚ) (n : ℕ) : Prop :=
  (to_bands v n).length = n ∧
  (∀ w ∈ to_bands v n, 0 ≤ w ∧ w ≤ 1) ∧
  (∀ i j : ℕ, i < j → j < n →
    (to_bands v n).getD i 0 ≠ 0 → (to_bands v n).getD j 0 ≠ 0 → j = i + 1)

/-- Value of a cell of the `r × r` quadrant `mask_2d` after the three
in-place steps of `BakeToWeightsOp.execute`: start from `i² + j²`, zero the
cells `≥ r² - r`, collapse the remaining cells `> 1` to 1, then set row 0
to 1. -/
def quad_val (r i j : ℕ) : ℤ :=
  if i = 0 then 1
  else
    let v : ℤ := (i : ℤ) ^ 2 + (j : ℤ) ^ 2
    if (r : ℤ) ^ 2 - (r : ℤ) ≤ v then 0
    else if 1 < v then 1
    else v

/-- `np.rot90(mask_2d, -2)`: rotation by 180 degrees. -/
def rot_quad (r i j : ℕ) : ℤ := quad_val r (r - 1 - i) (r - 1 - j)

/-- After `np.concatenate((mask_2d, np.fliplr(mask_2d[:, 0:r-1])), axis=1)`:
columns `r ≤ j ≤ 2r-2` mirror column `2r-2-j`. -/
def mask_rows (r i j : ℕ) : ℤ :=
  if j < r then rot_quad r i j else rot_quad r i (2 * r - 2 - j)

/-- After `np.concatenate((mask_2d, np.flipud(mask_2d[0:r-1, :])), axis=0)`:
the full `(2r-1) × (2r-1)` integer mask. -/
def mask_2d (r i j : ℕ) : ℤ :=
  if i < r then mask_rows r i j else mask_rows r (2 * r - 2 - i) j

/-- The binary sampling mask: `mask = np.zeros(...)` then
`mask[mask_2d > 0] = 1` (each of the 4 color channels gets the same 2D
pattern, so one channel is modelled). -/
def mask_cell (r i j : ℕ) : ℤ :=
  if 0 < mask_2d r i j then 1 else 0

end BakeToWeights

namespace DepthCodec

/-- `u24_to_u16` from convert_sl_snapshot_depth.py: `val //= 256` then
`min(65535, max(val, 0))`; Python `//` is floor division. -/
def u24_to_u16 (val : ℤ) : ℤ :=
  min 65535 (max (Int.fdiv val 256) 0)

/-- The 24-bit packing `(bands[0] << 16) | (bands[1] << 8) | bands[2]`. -/
def mono24 (r g b : ℕ) : ℕ :=
  (r <<< 16) ||| (g <<< 8) ||| b

/-- The per-pixel computation of `convert_to_16bit_mono`: bounds from the
range fractions via Python `int(...)` truncation, floor-division multiplier,
then `u24_to_u16((mono - lower_bound) * multiplier)`. -/
def convert_pixel (r g b : ℕ) (range_lower range_upper : ℚ) : ℤ :=
  let lower_bound := pyInt (0xFFFFFF * range_lower)
  let upper_bound := pyInt (0xFFFFFF * range_upper)
  let multiplier := Int.fdiv 0xFFFFFF (upper_bound - lower_bound)
  u24_to_u16 (((mono24 r g b : ℤ) - lower_bound) * multiplier)

/-- Stated from the spec's words for comparison: `pack_and_rescale` with
`lower = floor(0xFFFFFF * lower_frac)`, `upper = floor(0xFFFFFF * upper_frac)`,
`multiplier = 0xFFFFFF // (upper - lower)` and output
`clamp((mono24 - lower) * multiplier // 256, 0, 65535)`. -/
def pack_and_rescale (r g b : ℕ) (lower_frac upper_frac : ℚ) : ℤ :=
  let lower : ℤ := ⌊(0xFFFFFF : ℚ) * lower_frac⌋
  let upper : ℤ := ⌊(0xFFFFFF : ℚ) * upper_frac⌋
  let multiplier := Int.fdiv 0xFFFFFF (upper - lower)
  min 65535 (max (Int.fdiv (((mono24 r g b : ℤ) - lower) * multiplier) 256) 0)

end DepthCodec

namespace MorphTarget

/-- Branch-free normal form of `vector_to_weights`, obtained by running the
three sign tests of the source. -/
lemma vector_to_weights_explicit (d : Vec3) :
    vector_to_weights d =
      [if d.x < 0 then 0 else |d.x| / 5,
       if d.x < 0 then |d.x| / 5 else 0,
       if d.y < 0 then 0 else |d.y| / 5,
       if d.y < 0 then |d.y| / 5 else 0,
       if d.z < 0 then 0 else |d.z| / 5,
       if d.z < 0 then |d.z| / 5 else 0,
       1 - (|d.x| + |d.y| + |d.z|) / 5] := by
  unfold vector_to_weights MAX_MOVEMENT
  split_ifs <;>
    simp [List.replicate_succ, List.set, List.sum_cons] <;> ring_nf

lemma length_vtw (d : Vec3) : (vector_to_weights d).length = 7 := by
  simp [vector_to_weights_explicit]

lemma sum_vtw (d : Vec3) : (vector_to_weights d).sum = 1 := by
  rw [vector_to_weights_explicit]
  simp only [List.sum_cons, List.sum_nil]
  split_ifs <;> ring

lemma weight_at_x (d : Vec3) :
    weight_at d 0 = (if d.x < 0 then 0 else |d.x| / 5) ∧
    weight_at d 1 = (if d.x < 0 then |d.x| / 5 else 0) := by
  constructor <;> simp [weight_at, vector_to_weights_explicit]

lemma weight_at_y (d : Vec3) :
    weight_at d 2 = (if d.y < 0 then 0 else |d.y| / 5) ∧
    weight_at d 3 = (if d.y < 0 then |d.y| / 5 else 0) := by
  constructor <;> simp [weight_at, vector_to_weights_explicit]

lemma weight_at_z (d : Vec3) :
    weight_at d 4 = (if d.z < 0 then 0 else |d.z| / 5) ∧
    weight_at d 5 = (if d.z < 0 then |d.z| / 5 else 0) := by
  constructor <;> simp [weight_at, vector_to_weights_explicit]

lemma pair_cases (c : ℚ) (a b : ℚ)
    (ha : a = (if c < 0 then 0 else |c| / 5))
    (hb : b = (if c < 0 then |c| / 5 else 0)) :
    (c ≠ 0 → exactly_one_nonzero a b) ∧ (c = 0 → a = 0 ∧ b = 0) := by
  subst ha hb
  constructor
  · intro hc
    have habs : |c| / 5 ≠ 0 := div_ne_zero (abs_ne_zero.mpr hc) (by norm_num)
    rcases lt_or_le c 0 with h | h
    · right
      simp [h, habs]
    · left
      simp [not_lt.mpr h, habs]
  · intro hc
    simp [hc]

lemma pair_atmost (c : ℚ) (a b : ℚ)
    (ha : a = (if c < 0 then 0 else |c| / 5))
    (hb : b = (if c < 0 then |c| / 5 else 0)) :
    ¬(a ≠ 0 ∧ b ≠ 0) := by
  subst ha hb
  rintro ⟨h0, h1⟩
  rcases lt_or_le c 0 with h | h
  · exact h0 (by simp [h])
  · exact h1 (by simp [not_lt.mpr h])

lemma nonneg_vtw (d : Vec3) (hd : vec_motion_all_axes d ≤ MAX_MOVEMENT) :
    ∀ w ∈ vector_to_weights d, 0 ≤ w := by
  have hd5 : |d.x| + |d.y| + |d.z| ≤ 5 := by
    simpa [vec_motion_all_axes, MAX_MOVEMENT] using hd
  intro w hw
  rw [vector_to_weights_explicit] at hw
  simp only [List.mem_cons, List.not_mem_nil, or_false] at hw
  have habs : ∀ q : ℚ, (0 : ℚ) ≤ |q| / 5 := fun q => by positivity
  rcases hw with rfl | rfl | rfl | rfl | rfl | rfl | rfl
  · split_ifs <;> simp [habs]
  · split_ifs <;> simp [habs]
  · split_ifs <;> simp [habs]
  · split_ifs <;> simp [habs]
  · split_ifs <;> simp [habs]
  · split_ifs <;> simp [habs]
  · linarith

end MorphTarget

open MorphTarget in
/-- C1 (as stated, refuted at the claim's own example): the displacement
`(2.5, 0, 0)` satisfies the movement budget, yet the +Y/−Y axis-sign pair
has no nonzero channel, so "exactly one of each axis-sign pair is nonzero"
fails. -/
theorem C1_counterexample :
    vec_motion_all_axes ⟨5/2, 0, 0⟩ ≤ MAX_MOVEMENT ∧
    ¬ exactly_one_nonzero (weight_at ⟨5/2, 0, 0⟩ 2) (weight_at ⟨5/2, 0, 0⟩ 3) := by
  have h2 : weight_at ⟨5/2, 0, 0⟩ 2 = 0 := by
    norm_num [weight_at, vector_to_weights_explicit]
  have h3 : weight_at ⟨5/2, 0, 0⟩ 3 = 0 := by
    norm_num [weight_at, vector_to_weights_explicit]
  constructor
  · norm_num [vec_motion_all_axes, MAX_MOVEMENT, abs_of_nonneg, abs_of_nonpos]
  · simp [exactly_one_nonzero, h2, h3]

open MorphTarget in
/-- C1 (amended): for every displacement within the MAX_MOVEMENT budget,
`vector_to_weights` returns 7 non-negative values summing exactly to 1,
with at most one channel of each axis-sign pair nonzero — exactly one when
that axis's component is nonzero, both zero when the component is zero —
and `(2.5, 0, 0)` yields the 7-tuple `(0.5, 0, 0, 0, 0, 0, 0.5)` in the
fixed channel order. -/
theorem C1_amended_axis_decomposer :
    (∀ d : Vec3, vec_motion_all_axes d ≤ MAX_MOVEMENT → weights_budget_ok d) ∧
    vector_to_weights ⟨5/2, 0, 0⟩ = [1/2, 0, 0, 0, 0, 0, 1/2] := by
  constructor
  · intro d hd
    exact ⟨length_vtw d, nonneg_vtw d hd, sum_vtw d,
      (pair_cases d.x _ _ (weight_at_x d).1 (weight_at_x d).2).1,
      (pair_cases d.x _ _ (weight_at_x d).1 (weight_at_x d).2).2,
      (pair_cases d.y _ _ (weight_at_y d).1 (weight_at_y d).2).1,
      (pair_cases d.y _ _ (weight_at_y d).1 (weight_at_y d).2).2,
      (pair_cases d.z _ _ (weight_at_z d).1 (weight_at_z d).2).1,
      (pair_cases d.z _ _ (weight_at_z d).1 (weight_at_z d).2).2⟩
  · norm_num [vector_to_weights, MAX_MOVEMENT,
      List.replicate_succ, List.set, List.sum_cons, abs_of_nonneg]

open MorphTarget in
/-- Witness for C1: the displacement `(1, -2, 1/2)` satisfies the budget
hypothesis and the amended conclusion holds there. -/
theorem C1_axis_decomposer_witness :
    vec_motion_all_axes ⟨1, -2, 1/2⟩ ≤ MAX_MOVEMENT ∧
    weights_budget_ok ⟨1, -2, 1/2⟩ :=
  ⟨by norm_num [vec_motion_all_axes, MAX_MOVEMENT, abs_of_nonneg, abs_of_nonpos],
   C1_amended_axis_decomposer.1 ⟨1, -2, 1/2⟩
     (by norm_num [vec_motion_all_axes, MAX_MOVEMENT, abs_of_nonneg, abs_of_nonpos])⟩

open MorphTarget in
/-- C9: with no precondition at all, `vector_to_weights` returns a
7-element list whose components sum exactly to 1 (the slack channel being
1 minus the other six), with at most one channel of each axis-sign pair
nonzero, and both channels of a pair zero when that component is zero. -/
theorem C9_weights_unconditional (d : MorphTarget.Vec3) :
    weights_unconditional_ok d :=
  ⟨length_vtw d, sum_vtw d,
   pair_atmost d.x _ _ (weight_at_x d).1 (weight_at_x d).2,
   pair_atmost d.y _ _ (weight_at_y d).1 (weight_at_y d).2,
   pair_atmost d.z _ _ (weight_at_z d).1 (weight_at_z d).2,
   (pair_cases d.x _ _ (weight_at_x d).1 (weight_at_x d).2).2,
   (pair_cases d.y _ _ (weight_at_y d).1 (weight_at_y d).2).2,
   (pair_cases d.z _ _ (weight_at_z d).1 (weight_at_z d).2).2⟩

open MorphTarget in
/-- Witness for C9 at a vector far beyond the movement budget: the
invariants still hold. -/
theorem C9_weights_witness : weights_unconditional_ok ⟨0, 30, -7⟩ :=
  C9_weights_unconditional ⟨0, 30, -7⟩

namespace MorphTarget

lemma Vec3.sub_def (a b : Vec3) :
    a - b = ⟨a.x - b.x, a.y - b.y, a.z - b.z⟩ := rfl

lemma writes_for_vertex_mem (vi : ℕ) (d : Vec3) :
    ∀ w ∈ writes_for_vertex vi d, w.vertex = vi := by
  intro w hw
  simp only [writes_for_vertex, List.mem_map] at hw
  obtain ⟨p, _, rfl⟩ := hw
  rfl

end MorphTarget

open MorphTarget in
/-- C2: whenever some loop's vertex has a displacement whose total
magnitude exceeds `MAX_MOVEMENT`, the morph pipeline raises
`WeightException` carrying an offending magnitude, and no channel write is
issued for that vertex: its budget check runs before its seven writes. -/
theorem C2_budget_aborts_before_writes (s t : ℕ → Vec3)
    (loops : List ℕ) (vi : ℕ) (hmem : vi ∈ loops)
    (hbad : MAX_MOVEMENT < vec_motion_all_axes (s vi - t vi)) :
    (∃ m, (apply_pos_offset_weights s t loops).2 = some m ∧
      MAX_MOVEMENT < m) ∧
    (∀ w ∈ (apply_pos_offset_weights s t loops).1, w.vertex ≠ vi) := by
  induction loops with
  | nil => cases hmem
  | cons a rest ih =>
    by_cases ha : MAX_MOVEMENT < vec_motion_all_axes (s a - t a)
    · constructor
      · exact ⟨_, by simp [apply_pos_offset_weights, ha], ha⟩
      · intro w hw
        simp [apply_pos_offset_weights, ha] at hw
    · have hne : a ≠ vi := fun h => ha (h ▸ hbad)
      have hmem' : vi ∈ rest := by
        rcases List.mem_cons.mp hmem with h | h
        · exact absurd h.symm hne
        · exact h
      obtain ⟨herr, hwr⟩ := ih hmem'
      constructor
      · obtain ⟨m, hm, hlt⟩ := herr
        exact ⟨m, by simp [apply_pos_offset_weights, ha, hm], hlt⟩
      · intro w hw
        simp only [apply_pos_offset_weights, if_neg ha, List.mem_append] at hw
        rcases hw with hw | hw
        · exact (writes_for_vertex_mem a _ w hw) ▸ hne
        · exact hwr w hw

open MorphTarget in
/-- Witness for C2: with every source vertex at `(6, 0, 0)` and every
target vertex at the origin, vertex 0 of the single loop exceeds the
budget, the run reports an exception, and no write at all is issued. -/
theorem C2_budget_witness :
    0 ∈ [0] ∧
    MAX_MOVEMENT < vec_motion_all_axes (demo_source_co 0 - demo_target_co 0) ∧
    (apply_pos_offset_weights demo_source_co demo_target_co [0]).2 ≠ none ∧
    (apply_pos_offset_weights demo_source_co demo_target_co [0]).1 = [] := by
  have hbad : MAX_MOVEMENT <
      vec_motion_all_axes (demo_source_co 0 - demo_target_co 0) := by
    norm_num [vec_motion_all_axes, MAX_MOVEMENT, demo_source_co,
      demo_target_co, Vec3.sub_def]
  have h := C2_budget_aborts_before_writes demo_source_co demo_target_co
    [0] 0 (by simp) hbad
  obtain ⟨⟨m, hm, _⟩, _⟩ := h
  refine ⟨by simp, hbad, by simp [hm], ?_⟩
  simp [apply_pos_offset_weights, hbad]

namespace BakeToWeights

lemma to_bands_length (v : ℚ) (n : ℕ) (hn : n ≠ 1) :
    (to_bands v n).length = n := by
  simp only [to_bands, if_neg hn, List.length_map, List.length_range]

lemma to_bands_getD (v : ℚ) (n : ℕ) (hn : n ≠ 1) (i : ℕ) (hi : i < n) :
    (to_bands v n).getD i 0 =
      1 - min 1 (max 0 |v * ((n : ℚ) - 1) - (i : ℚ)|) := by
  rw [List.getD_eq_getElem _ _ (by rw [to_bands_length v n hn]; exact hi)]
  simp only [to_bands, if_neg hn, List.getElem_map, List.getElem_range]

lemma band_value_nonzero {q : ℚ} (h : 1 - min 1 (max 0 |q|) ≠ 0) :
    |q| < 1 := by
  by_contra hq
  push_neg at hq
  have hmax : max 0 |q| = |q| := max_eq_right (abs_nonneg q)
  have hmin : min 1 (max 0 |q|) = 1 := by rw [hmax]; exact min_eq_left hq
  exact h (by rw [hmin]; ring)

end BakeToWeights

open BakeToWeights in
/-- C3: `to_bands(value, 1)` returns `[value]` verbatim, and for
`num_bands > 1` element `i` equals `1 - clamp(|value*(num_bands-1) - i|, 0, 1)`
for every `i < num_bands`; in particular band 0 of `to_bands(0, n)` and band
`n-1` of `to_bands(1, n)` are 1. -/
theorem C3_to_bands_formula :
    (∀ v : ℚ, to_bands v 1 = [v]) ∧
    (∀ (v : ℚ) (n : ℕ), 1 < n →
      ((to_bands v n).length = n ∧
       (∀ i, i < n →
         (to_bands v n).getD i 0 =
           1 - min 1 (max 0 |v * ((n : ℚ) - 1) - (i : ℚ)|)) ∧
       (to_bands (0 : ℚ) n).getD 0 0 = 1 ∧
       (to_bands (1 : ℚ) n).getD (n - 1) 0 = 1)) := by
  refine ⟨fun v => by simp [to_bands], ?_⟩
  intro v n hn
  have hne : n ≠ 1 := by omega
  refine ⟨to_bands_length v n hne, fun i hi => to_bands_getD v n hne i hi,
    ?_, ?_⟩
  · rw [to_bands_getD 0 n hne 0 (by omega)]
    norm_num
  · rw [to_bands_getD 1 n hne (n - 1) (by omega)]
    have hc : ((n - 1 : ℕ) : ℚ) = (n : ℚ) - 1 := by
      have h1 : (1 : ℕ) ≤ n := by omega
      push_cast [h1]
      ring
    rw [hc]
    norm_num

open BakeToWeights in
/-- Witness for C3: concrete evaluations at one band and at three bands. -/
theorem C3_to_bands_witness :
    (1 : ℕ) < 3 ∧
    to_bands (1/2 : ℚ) 1 = [1/2] ∧
    (to_bands (1/2 : ℚ) 3).getD 1 0 =
      1 - min 1 (max 0 |(1/2 : ℚ) * ((3 : ℚ) - 1) - (1 : ℚ)|) ∧
    (to_bands (0 : ℚ) 3).getD 0 0 = 1 ∧
    (to_bands (1 : ℚ) 3).getD (3 - 1) 0 = 1 :=
  ⟨by norm_num,
   C3_to_bands_formula.1 (1/2),
   (C3_to_bands_formula.2 (1/2) 3 (by norm_num)).2.1 1 (by norm_num),
   (C3_to_bands_formula.2 (1/2) 3 (by norm_num)).2.2.1,
   (C3_to_bands_formula.2 (1/2) 3 (by norm_num)).2.2.2⟩

open BakeToWeights in
/-- C10: for every number of bands at least 2 and every rational input,
including inputs outside `[0, 1]`, `to_bands` returns exactly `num_bands`
values, each lying in `[0, 1]`, with at most two nonzero values and those
at adjacent indices. -/
theorem C10_to_bands_range_adjacent (v : ℚ) (n : ℕ) (hn : 2 ≤ n) :
    bands_ok v n := by
  have hne : n ≠ 1 := by omega
  refine ⟨to_bands_length v n hne, ?_, ?_⟩
  · intro w hw
    simp only [to_bands, if_neg hne, List.mem_map, List.mem_range] at hw
    obtain ⟨i, _, rfl⟩ := hw
    have h0 : (0 : ℚ) ≤ min 1 (max 0 |v * ((n : ℚ) - 1) - (i : ℚ)|) :=
      le_min (by norm_num) (le_max_left 0 _)
    have h1 : min 1 (max 0 |v * ((n : ℚ) - 1) - (i : ℚ)|) ≤ 1 :=
      min_le_left 1 _
    constructor <;> linarith
  · intro i j hij hjn hi hj
    rw [to_bands_getD v n hne i (by omega)] at hi
    rw [to_bands_getD v n hne j (by omega)] at hj
    have hi1 := band_value_nonzero hi
    have hj1 := band_value_nonzero hj
    rw [abs_lt] at hi1 hj1
    have : (j : ℚ) < (i : ℚ) + 2 := by linarith [hi1.1, hi1.2, hj1.1, hj1.2]
    have hjq : j < i + 2 := by exact_mod_cast this
    omega

open BakeToWeights in
/-- Witness for C10 at three bands and an out-of-range input. -/
theorem C10_to_bands_witness : 2 ≤ 3 ∧ bands_ok (7/5 : ℚ) 3 :=
  ⟨by norm_num, C10_to_bands_range_adjacent (7/5) 3 (by norm_num)⟩

lemma pyInt_eq_floor {q : ℚ} (h : 0 ≤ q) : pyInt q = ⌊q⌋ := by
  simp [pyInt, not_lt.mpr h]

namespace DepthCodec

lemma mono24_white : mono24 255 255 255 = 16777215 := by decide

lemma mono24_black : mono24 0 0 0 = 0 := by decide

end DepthCodec

open DepthCodec in
/-- C4: for non-negative range fractions the per-pixel depth conversion of
the code coincides with the spec's `pack_and_rescale` formula — `lower` and
`upper` are floors of `0xFFFFFF` times the fractions, the multiplier is the
floor division `0xFFFFFF // (upper - lower)`, and the output is
`clamp((mono24 - lower) * multiplier // 256, 0, 65535)` — and with range
`(0.0, 1.0)` the pixel `(255,255,255)` yields 65535 and `(0,0,0)` yields
0. -/
theorem C4_depth_codec_formula :
    (∀ (r g b : ℕ) (lf uf : ℚ), 0 ≤ lf → 0 ≤ uf →
      convert_pixel r g b lf uf = pack_and_rescale r g b lf uf) ∧
    convert_pixel 255 255 255 0 1 = 65535 ∧
    convert_pixel 0 0 0 0 1 = 0 := by
  refine ⟨?_, ?_, ?_⟩
  · intro r g b lf uf hl hu
    have h1 : (0 : ℚ) ≤ 0xFFFFFF * lf := by positivity
    have h2 : (0 : ℚ) ≤ 0xFFFFFF * uf := by positivity
    simp only [convert_pixel, pack_and_rescale, u24_to_u16,
      pyInt_eq_floor h1, pyInt_eq_floor h2]
  · have h0 : pyInt (0xFFFFFF * (0 : ℚ)) = 0 := by
      norm_num [pyInt]
    have h1 : pyInt (0xFFFFFF * (1 : ℚ)) = 16777215 := by
      norm_num [pyInt]
    simp only [convert_pixel, u24_to_u16, mono24_white, h0, h1]
    decide
  · have h0 : pyInt (0xFFFFFF * (0 : ℚ)) = 0 := by
      norm_num [pyInt]
    have h1 : pyInt (0xFFFFFF * (1 : ℚ)) = 16777215 := by
      norm_num [pyInt]
    simp only [convert_pixel, u24_to_u16, mono24_black, h0, h1]
    decide

open DepthCodec in
/-- Witness for C4 at pixel `(17, 34, 51)` and range `(1/4, 3/4)`. -/
theorem C4_depth_codec_witness :
    (0 : ℚ) ≤ 1/4 ∧ (0 : ℚ) ≤ 3/4 ∧
    convert_pixel 17 34 51 (1/4) (3/4) = pack_and_rescale 17 34 51 (1/4) (3/4) :=
  ⟨by norm_num, by norm_num,
   C4_depth_codec_formula.1 17 34 51 (1/4) (3/4) (by norm_num) (by norm_num)⟩

open DepthCodec in
/-- C5 (the code has no range validation): with `upper_frac < lower_frac`
the conversion silently produces garbage instead of rejecting the input —
the far white pixel `(255,255,255)` maps to 0 and the near black pixel
`(0,0,0)` maps to 65535, because the multiplier `0xFFFFFF // (upper - lower)`
is computed on a negative range without any prior check (and
`upper_frac = lower_frac` makes that division a Python ZeroDivisionError
rather than a validated rejection). -/
theorem C5_no_range_validation :
    convert_pixel 255 255 255 (1/2) (1/4) = 0 ∧
    convert_pixel 0 0 0 (1/2) (1/4) = 65535 := by
  have hl : pyInt (0xFFFFFF * (1/2 : ℚ)) = 8388607 := by
    norm_num [pyInt]
  have hu : pyInt (0xFFFFFF * (1/4 : ℚ)) = 4194303 := by
    norm_num [pyInt]
  constructor
  · simp only [convert_pixel, u24_to_u16, mono24_white, hl, hu]
    decide
  · simp only [convert_pixel, u24_to_u16, mono24_black, hl, hu]
    decide

open BakeToWeights in
/-- C6 (as stated, refuted at a negative UV): the code truncates
`uv * extent` toward zero (Python `int(...)`) before the modulo, while the
claim's formula floors it; at `uv = (0, -1/2)` over a 1×3 grid the code
reads row 2 but the claimed floor formula gives row 1. -/
theorem C6_counterexample :
    pick_color_r1 (0, -1/2) row_index_grid 1 3 = 2 ∧
    floor_sample_r1 (0, -1/2) row_index_grid 1 3 = 1 := by
  constructor
  · have hx : pyInt ((-1/2 : ℚ) * ((3 : ℤ) : ℚ)) = -1 := by
      norm_num [pyInt, Int.ceil_neg]
    simp only [pick_color_r1, row_index_grid, hx]
    decide
  · have hx : ⌊(-1/2 : ℚ) * ((3 : ℤ) : ℚ)⌋ = -2 := by
      norm_num
    simp only [floor_sample_r1, row_index_grid, hx]
    decide

open BakeToWeights in
/-- C6 (amended): for non-negative UV coordinates over a grid of positive
width and height, the radius-1 sample equals the direct single-pixel
lookup at `row = floor(u2*height) mod height`, `col = floor(u1*width) mod
width` (the deliberate axis swap between UV components and grid axes). -/
theorem C6_amended_uv_lookup {α : Type} (uv : ℚ × ℚ) (pixels : ℤ → ℤ → α)
    (w h : ℤ) (hw : 0 < w) (hh : 0 < h)
    (hu1 : 0 ≤ uv.1) (hu2 : 0 ≤ uv.2) :
    pick_color_r1 uv pixels w h = floor_sample_r1 uv pixels w h := by
  have hwq : (0 : ℚ) ≤ (w : ℚ) := by exact_mod_cast hw.le
  have hhq : (0 : ℚ) ≤ (h : ℚ) := by exact_mod_cast hh.le
  have h1 : pyInt (uv.1 * (w : ℚ)) = ⌊uv.1 * (w : ℚ)⌋ :=
    pyInt_eq_floor (mul_nonneg hu1 hwq)
  have h2 : pyInt (uv.2 * (h : ℚ)) = ⌊uv.2 * (h : ℚ)⌋ :=
    pyInt_eq_floor (mul_nonneg hu2 hhq)
  simp only [pick_color_r1, floor_sample_r1, h1, h2]

open BakeToWeights in
/-- Witness for C6 on a 4×3 grid at UV `(1/3, 5/7)`. -/
theorem C6_uv_lookup_witness :
    (0 : ℤ) < 4 ∧ (0 : ℤ) < 3 ∧ (0 : ℚ) ≤ 1/3 ∧ (0 : ℚ) ≤ 5/7 ∧
    pick_color_r1 (1/3, 5/7) row_index_grid 4 3 =
      floor_sample_r1 (1/3, 5/7) row_index_grid 4 3 :=
  ⟨by norm_num, by norm_num, by norm_num, by norm_num,
   C6_amended_uv_lookup (1/3, 5/7) row_index_grid 4 3
     (by norm_num) (by norm_num) (by norm_num) (by norm_num)⟩

namespace BakeToWeights

lemma running_avg_cons (x s : ℚ) (ts : List ℚ) :
    running_avg x (s :: ts) = running_avg ((x + s) / 2) ts := by
  simp [running_avg]

lemma foldl_opt_step (t : List ℚ) (x : ℚ) :
    t.foldl opt_step (some x) = some (running_avg x t) := by
  induction t generalizing x with
  | nil => simp [running_avg]
  | cons s ts ih =>
    rw [List.foldl_cons, running_avg_cons]
    exact ih ((x + s) / 2)

lemma foldl_update (l : List (ℕ × ℚ)) (m : ℕ → Option ℚ) (v : ℕ) :
    (l.foldl (fun m p => update_weight m p.1 p.2) m) v =
      (samples_for v l).foldl opt_step (m v) := by
  induction l generalizing m with
  | nil => simp [samples_for]
  | cons a t ih =>
    obtain ⟨av, aw⟩ := a
    rw [List.foldl_cons, ih]
    by_cases hv : av = v
    · subst hv
      have hs : samples_for av ((av, aw) :: t) = aw :: samples_for av t := by
        simp [samples_for, List.filter_cons]
      rw [hs, List.foldl_cons]
      have hupd : update_weight m av aw av = opt_step (m av) aw := by
        cases hmv : m av <;> simp [update_weight, opt_step, hmv]
      rw [hupd]
    · have hs : samples_for v ((av, aw) :: t) = samples_for v t := by
        simp [samples_for, List.filter_cons, hv]
      have hv2 : ¬ v = av := fun h => hv h.symm
      have hupd : update_weight m av aw v = m v := by
        simp [update_weight, hv2]
      rw [hs, hupd]

lemma aggregate_eq (samples : List (ℕ × ℚ)) (v : ℕ) :
    aggregate_weights samples v = claimed_vertex_weight v samples := by
  rw [aggregate_weights, foldl_update]
  cases hs : samples_for v samples with
  | nil => simp [claimed_vertex_weight, hs]
  | cons h t =>
    have h0 : opt_step none h = some h := rfl
    rw [claimed_vertex_weight, hs, List.foldl_cons, h0, foldl_opt_step]

end BakeToWeights

open BakeToWeights in
/-- C7: the per-vertex aggregation of loop samples is exactly the
order-dependent pairwise running average — the first sample touching a
vertex sets its weight, each later one updates it via
`running = (running + new) / 2` — and it differs from the cumulative mean:
samples `0, 0, 1` aggregate to `1/2` while their mean is `1/3`. -/
theorem C7_running_average :
    (∀ (samples : List (ℕ × ℚ)) (v : ℕ),
      aggregate_weights samples v = claimed_vertex_weight v samples) ∧
    aggregate_weights [(0, 0), (0, 0), (0, 1)] 0 = some (1/2) ∧
    ((0 : ℚ) + 0 + 1) / 3 ≠ (1/2 : ℚ) := by
  refine ⟨fun samples v => aggregate_eq samples v, ?_, by norm_num⟩
  rw [aggregate_eq]
  have hs : samples_for 0 [(0, 0), (0, 0), (0, 1)] = [0, 0, 1] := by
    simp [samples_for, List.filter_cons]
  rw [claimed_vertex_weight, hs]
  norm_num [running_avg]

open BakeToWeights in
/-- Witness for C7 on an interleaved sample list. -/
theorem C7_running_witness :
    aggregate_weights [(1, 1/3), (2, 1), (1, 2/3)] 1 =
      claimed_vertex_weight 1 [(1, 1/3), (2, 1), (1, 2/3)] :=
  C7_running_average.1 [(1, 1/3), (2, 1), (1, 2/3)] 1

open BakeToWeights in
/-- C8: the circular sampling mask built for radius 3 (diameter 5) is
point-symmetric: every cell equals the cell at the point-reflected index
pair `(diameter-1-i, diameter-1-j)`. -/
theorem C8_circular_mask_point_symmetric :
    ∀ i j : Fin 5, mask_cell 3 i.val j.val = mask_cell 3 (4 - i.val) (4 - j.val) := by
  decide
